import Mathlib

/-!
Verification of the path-resolution and loading module of a GWAS genomic
data-sharing pipeline (file src/dataio.py).

Shallow embedding conventions:
- A filesystem path is the list of its components under the filesystem root
  (the Python Path "/a/b" is the list of strings a, b).
- The filesystem state is a record of the set of existing directories and the
  set of existing regular files; mkdir with parents and exist_ok is a pure
  state transformer on it.
- Python exceptions become constructors of an error type, distinguished by
  their role in the source (ValueError for an invalid population, method or
  group; the two KeyError sites; FileNotFoundError from the existence check;
  RuntimeError from root detection).
- A Python float argument that the code only ever stringifies (epsilon, which
  method_dir renders with str and a dot-to-underscore substitution) is
  embedded by its decimal rendering string, since only that rendering reaches
  the code under verification.
-/

namespace Gwas

/-- A filesystem path as its list of components under the root. -/
abbrev Path := List String

/-- Error outcomes of the module, one constructor per raise site or
exception role in src/dataio.py. -/
inductive PipeError where
  /-- RuntimeError from find_project_root, naming the starting directory. -/
  | rootNotFound (cwd : Path)
  /-- ValueError from genotype_path on a population outside CEU and YRI. -/
  | invalidPopulation
  /-- ValueError from method_dir on an unrecognized method name. -/
  | invalidMethod
  /-- ValueError from get_group_indices on a group outside case, control, test. -/
  | invalidGroup
  /-- Plain KeyError from subscripting a dict with an absent key. -/
  | keyLookup (key : String)
  /-- The explicit KeyError raised by get_group_indices when the index field
  is absent, naming the group and the required field. -/
  | missingIndices (group : String) (field : String)
  /-- FileNotFoundError from assertExists when some checked path is absent. -/
  | missingRequiredFiles
  /-- A numpy dtype cast that cannot be performed on the element values. -/
  | castFailure
  deriving DecidableEq, Repr

/-- Filesystem state: the set of existing directories and of existing
regular files, each as a list of paths. -/
structure FS where
  dirs : List Path
  files : List Path
  deriving DecidableEq, Repr

/-- A path exists when it is an existing directory or an existing file
(pathlib Path.exists). -/
def FS.pathExists (fs : FS) (p : Path) : Bool :=
  decide (p ∈ fs.dirs) || decide (p ∈ fs.files)

/-- Create one directory if absent (one step of mkdir). -/
def FS.insertDir (fs : FS) (p : Path) : FS :=
  if p ∈ fs.dirs then fs else { fs with dirs := p :: fs.dirs }

/-- Path.mkdir with parents and exist_ok: create the directory and every
ancestor, erroring on none of them. The initial segments of the component
list are exactly the directory and its ancestors. -/
def FS.mkdirParents (fs : FS) (p : Path) : FS :=
  p.inits.foldl FS.insertDir fs

/-- The data directory under the project root (constant DATA_DIR). -/
def DATA_DIR (root : Path) : Path := root ++ ["data"]

/-- Constant RAW_DIR. -/
def RAW_DIR (root : Path) : Path := DATA_DIR root ++ ["raw", "hapmap"]

/-- Constant RAW_GENOTYPES_DIR. -/
def RAW_GENOTYPES_DIR (root : Path) : Path := RAW_DIR root ++ ["genotypes"]

/-- Constant RAW_PHASING_DIR. -/
def RAW_PHASING_DIR (root : Path) : Path :=
  RAW_DIR root ++ ["phasing", "HapMap3_r2", "CEU", "UNRELATED"]

/-- Constant RAW_PHASING_META_DIR. -/
def RAW_PHASING_META_DIR (root : Path) : Path :=
  RAW_DIR root ++ ["phasing", "HapMap3_r2_meta"]

/-- Constant PROC_DIR. -/
def PROC_DIR (root : Path) : Path := DATA_DIR root ++ ["processed", "hapmap"]

/-- Constant PROC_REGIONS_DIR. -/
def PROC_REGIONS_DIR (root : Path) : Path := PROC_DIR root ++ ["regions"]

/-- Constant PROC_COHORTS_DIR. -/
def PROC_COHORTS_DIR (root : Path) : Path := PROC_DIR root ++ ["cohorts"]

/-- Constant PROC_BLOCKS_DIR. -/
def PROC_BLOCKS_DIR (root : Path) : Path := PROC_DIR root ++ ["blocks"]

/-- Constant PROC_HAPLOTYPES_DIR. -/
def PROC_HAPLOTYPES_DIR (root : Path) : Path := PROC_DIR root ++ ["haplotypes"]

/-- Constant DERIVED_DIR. -/
def DERIVED_DIR (root : Path) : Path := DATA_DIR root ++ ["derived"]

/-- Constant DERIVED_METHOD1_DIR. -/
def DERIVED_METHOD1_DIR (root : Path) : Path := DERIVED_DIR root ++ ["method1"]

/-- Constant DERIVED_METHOD2_DIR. -/
def DERIVED_METHOD2_DIR (root : Path) : Path := DERIVED_DIR root ++ ["method2"]

/-- Constant DERIVED_METHOD3_DIR. -/
def DERIVED_METHOD3_DIR (root : Path) : Path := DERIVED_DIR root ++ ["method3"]

/-- The list of directories ensure_dirs creates, in source order. -/
def catalogDirs (root : Path) : List Path :=
  [RAW_GENOTYPES_DIR root,
   RAW_PHASING_DIR root,
   RAW_PHASING_META_DIR root,
   PROC_REGIONS_DIR root,
   PROC_COHORTS_DIR root,
   PROC_BLOCKS_DIR root,
   PROC_HAPLOTYPES_DIR root,
   DERIVED_METHOD1_DIR root,
   DERIVED_METHOD2_DIR root,
   DERIVED_METHOD3_DIR root]

/-- Function ensure_dirs: mkdir with parents and exist_ok on every catalog
directory, in order. -/
def ensure_dirs (root : Path) (fs : FS) : FS :=
  (catalogDirs root).foldl FS.mkdirParents fs

/-- The Python expression str(eps).replace with a dot pattern and an
underscore replacement; a single-character pattern makes it a character map. -/
def dotToUnderscore (s : String) : String :=
  ⟨s.data.map (fun c => if c = '.' then '_' else c)⟩

/-- Function method_dir: validate the method name, build the derived output
directory from the method and the rendered epsilon, create it with parents,
return it. An invalid method raises before any directory is created. -/
def method_dir (root : Path) (method : String) (epsStr : String) (fs : FS) :
    Except PipeError Path × FS :=
  if method = "method1" ∨ method = "method2" ∨ method = "method3" then
    let out := DERIVED_DIR root ++ [method, "eps_" ++ dotToUnderscore epsStr]
    (Except.ok out, fs.mkdirParents out)
  else
    (Except.error PipeError.invalidMethod, fs)

/-- The chain of ancestors of a path, nearest first, ending at the
filesystem root (the empty component list), as pathlib Path.parents
enumerates them. -/
def parentsOf (l : Path) : List Path :=
  if _h : l = [] then [] else l.dropLast :: parentsOf l.dropLast
termination_by l.length
decreasing_by
  simp only [List.length_dropLast]
  exact Nat.sub_lt (List.length_pos.mpr _h) Nat.one_pos

/-- The root-marker check of find_project_root: the directory contains a
requirements.txt entry or a .git entry. -/
def hasRootMarker (fs : FS) (d : Path) : Bool :=
  fs.pathExists (d ++ ["requirements.txt"]) || fs.pathExists (d ++ [".git"])

/-- Function find_project_root: return the working directory when it carries
the marker, otherwise the first ancestor (nearest first) that does; raise
RuntimeError naming the working directory when none does. -/
def find_project_root (fs : FS) (cwd : Path) : Except PipeError Path :=
  if hasRootMarker fs cwd then Except.ok cwd
  else
    match (parentsOf cwd).find? (hasRootMarker fs) with
    | some p => Except.ok p
    | none => Except.error (PipeError.rootNotFound cwd)

/-- The Python string method upper, character by character (the population
codes in play are ASCII). -/
def pyUpper (s : String) : String :=
  ⟨s.data.map Char.toUpper⟩

/-- Function genotype_path: uppercase the population, validate it against
CEU and YRI, and build the genotype archive filename under the raw genotypes
directory. A pure function of its arguments: no filesystem state is read or
written. -/
def genotype_path (root : Path) (pop : String) (chrom : Int) : Except PipeError Path :=
  let popU := pyUpper pop
  if popU = "CEU" ∨ popU = "YRI" then
    Except.ok (RAW_GENOTYPES_DIR root ++
      ["genotypes_chr" ++ toString chrom ++ "_" ++ popU ++ "_r27_nr.b36_fwd.txt.gz"])
  else
    Except.error PipeError.invalidPopulation

/-- A JSON value stored in a cohort group record: a list of integers (index
lists) or a list of strings (sample identifier lists). -/
inductive Jval where
  | ints (l : List Int)
  | strs (l : List String)
  deriving DecidableEq, Repr

/-- A cohort group record: a JSON object as an association list. -/
abbrev GroupRec := List (String × Jval)

/-- A cohort document: the top-level JSON object mapping group names to
group records. -/
abbrev CohortDoc := List (String × GroupRec)

/-- Python dict subscripting and membership: the value at the first binding
of the key, if any. -/
def assocFind {α : Type} (m : List (String × α)) (k : String) : Option α :=
  (m.find? (fun kv => kv.1 = k)).map (fun kv => kv.2)

/-- The numpy expression converting a JSON list to an integer array with the
int dtype: an integer list passes through unchanged; a list of sample-id
strings is not integer-convertible and raises. (Numeric-string parsing is
not exercised by any cohort file and is not modelled.) -/
def npArrayInt (v : Jval) : Except PipeError (List Int) :=
  match v with
  | Jval.ints l => Except.ok l
  | Jval.strs _ => Except.error PipeError.castFailure

/-- The name of the required index field of a cohort group record. -/
def indicesField : String := "indices_in_ceu_matrix"

/-- Function get_group_indices: validate the group name, subscript the
document at the group (a plain KeyError when the group is absent), check the
index field is present (an explanatory KeyError naming the group and field
when not), and return the field as an integer array. -/
def get_group_indices (cohorts : CohortDoc) (group : String) :
    Except PipeError (List Int) :=
  if group = "case" ∨ group = "control" ∨ group = "test" then
    match assocFind cohorts group with
    | none => Except.error (PipeError.keyLookup group)
    | some g =>
      match assocFind g indicesField with
      | none => Except.error (PipeError.missingIndices group indicesField)
      | some v => npArrayInt v
  else
    Except.error PipeError.invalidGroup

/-- One iteration of the assertExists loop: report the path with its
presence on the human-readable channel and accumulate the running all-present
flag. -/
def assertStep (fs : FS) (acc : List (Path × Bool) × Bool) (p : Path) :
    List (Path × Bool) × Bool :=
  (acc.1 ++ [(p, fs.pathExists p)], acc.2 && fs.pathExists p)

/-- Function assertExists: walk every path, reporting presence or absence of
each, and only after the loop raise FileNotFoundError when some path was
absent. The first component is the printed per-path report in order. -/
def assertExists (fs : FS) (paths : List Path) :
    List (Path × Bool) × Except PipeError Unit :=
  let r := paths.foldl (assertStep fs) ([], true)
  (r.1, if r.2 then Except.ok () else Except.error PipeError.missingRequiredFiles)

/-- A numpy dtype, as the loader distinguishes them: generic object, 64-bit
integer, 8-bit signed integer, or whatever dtype the producer stored. -/
inductive Dtype where
  | obj
  | int64
  | int8
  | stored
  deriving DecidableEq, Repr

/-- An element of a numpy array: an integer or a string. -/
inductive NpElem where
  | i (z : Int)
  | s (t : String)
  deriving DecidableEq, Repr

/-- A numpy array: its dtype and its flattened element list. -/
structure NpArr where
  dtype : Dtype
  data : List NpElem
  deriving DecidableEq, Repr

/-- Signed wrap-around of an integer into 64 bits, the numpy astype
behaviour on an int64 target. -/
def wrap64 (z : Int) : Int := (z + 2 ^ 63) % 2 ^ 64 - 2 ^ 63

/-- Signed wrap-around of an integer into 8 bits, the numpy astype
behaviour on an int8 target: out-of-range values wrap, they are never
rejected. -/
def wrap8 (z : Int) : Int := (z + 2 ^ 7) % 2 ^ 8 - 2 ^ 7

/-- The astype call with an object target: the dtype becomes generic and
every element is kept as it is; it succeeds on any array. -/
def astypeObj (a : NpArr) : NpArr := ⟨Dtype.obj, a.data⟩

/-- Elementwise integer cast of array data: integer elements are wrapped by
the given function; an identifier string is not integer-convertible and
raises. (Numeric-string parsing is not exercised by the pipeline archives
and is not modelled.) -/
def castData (f : Int → Int) : List NpElem → Except PipeError (List NpElem)
  | [] => Except.ok []
  | NpElem.i z :: rest => (castData f rest).map (fun l => NpElem.i (f z) :: l)
  | NpElem.s _ :: _ => Except.error PipeError.castFailure

/-- The astype call with an int64 target. -/
def astypeInt64 (a : NpArr) : Except PipeError NpArr :=
  (castData wrap64 a.data).map (fun d => ⟨Dtype.int64, d⟩)

/-- The astype call with an int8 target. -/
def astypeInt8 (a : NpArr) : Except PipeError NpArr :=
  (castData wrap8 a.data).map (fun d => ⟨Dtype.int8, d⟩)

/-- The in-memory dict of named arrays read from an npz archive. -/
abbrev Archive := List (String × NpArr)

/-- Assigning to an existing dict key: replace the bound value, keep every
other binding and the key order. -/
def assocUpdate {α : Type} (m : List (String × α)) (k : String) (v : α) :
    List (String × α) :=
  m.map (fun kv => if kv.1 = k then (k, v) else kv)

/-- The conditional in-place normalization: when the key is present, replace
its array by a total transform of it; an absent key leaves the dict alone. -/
def applyTotal (m : Archive) (k : String) (f : NpArr → NpArr) : Archive :=
  match assocFind m k with
  | none => m
  | some a => assocUpdate m k (f a)

/-- The conditional in-place cast: when the key is present, replace its array
by a fallible cast of it, propagating the failure; an absent key leaves the
dict alone and raises nothing. -/
def applyCast (m : Archive) (k : String) (f : NpArr → Except PipeError NpArr) :
    Except PipeError Archive :=
  match assocFind m k with
  | none => Except.ok m
  | some a => (f a).map (assocUpdate m k)

/-- The identifier-like keys the loader coerces to the object dtype, in
source order. -/
def objKeys : List String :=
  ["sample_ids", "snp_ids", "minor_alleles", "major_alleles",
   "counted_alleles", "other_alleles"]

/-- One step of the identifier-normalization loop of load_region_npz. -/
def objNormStep (m : Archive) (k : String) : Archive := applyTotal m k astypeObj

/-- Function load_region_npz, after the npz file has been read into the dict
of its named arrays: coerce the identifier-like fields that are present to
the object dtype, the positions field when present to int64, and the
genotype matrix field G when present to int8; absent fields are skipped
without error. -/
def load_region_npz (z : Archive) : Except PipeError Archive := do
  let out := objKeys.foldl objNormStep z
  let out ← applyCast out "positions" astypeInt64
  applyCast out "G" astypeInt8

/-- Whether an array element is an integer. -/
def isIntElem : NpElem → Bool
  | NpElem.i _ => true
  | NpElem.s _ => false

/-- The elementwise result of a successful integer cast. -/
def mapIntsElem (f : Int → Int) (e : NpElem) : NpElem :=
  match e with
  | NpElem.i z => NpElem.i (f z)
  | NpElem.s t => NpElem.s t

/-- A concrete archive for evaluation: a genotype matrix with an
out-of-range value, sample identifiers, and positions. -/
def sampleArchive : Archive :=
  [("G", ⟨Dtype.stored, [NpElem.i 0, NpElem.i 1, NpElem.i 200]⟩),
   ("sample_ids", ⟨Dtype.stored, [NpElem.s "NA12878"]⟩),
   ("positions", ⟨Dtype.stored, [NpElem.i 5, NpElem.i 9]⟩)]

/-- Creating a directory keeps the file set untouched. -/
theorem FS.files_insertDir (fs : FS) (p : Path) : (fs.insertDir p).files = fs.files := by
  unfold FS.insertDir
  split <;> rfl

/-- Creating a directory keeps every existing directory. -/
theorem FS.mem_dirs_insertDir (fs : FS) (p q : Path) (h : q ∈ fs.dirs) :
    q ∈ (fs.insertDir p).dirs := by
  unfold FS.insertDir
  split
  · exact h
  · exact List.mem_cons_of_mem _ h

/-- After creating a directory it exists. -/
theorem FS.mem_dirs_insertDir_self (fs : FS) (p : Path) : p ∈ (fs.insertDir p).dirs := by
  unfold FS.insertDir
  split
  · assumption
  · exact List.mem_cons_self _ _

/-- Creating an already-existing directory changes nothing. -/
theorem FS.insertDir_of_mem (fs : FS) (p : Path) (h : p ∈ fs.dirs) : fs.insertDir p = fs := by
  unfold FS.insertDir
  simp [h]

/-- A fold of directory creations keeps every existing directory. -/
theorem foldl_insertDir_mem_of_mem (l : List Path) :
    ∀ fs : FS, ∀ q ∈ fs.dirs, q ∈ (l.foldl FS.insertDir fs).dirs := by
  induction l with
  | nil => intro fs q h; exact h
  | cons d ds ih =>
      intro fs q h
      exact ih _ _ (FS.mem_dirs_insertDir fs d q h)

/-- A fold of directory creations creates every directory in its list. -/
theorem foldl_insertDir_mem_self (l : List Path) :
    ∀ fs : FS, ∀ q ∈ l, q ∈ (l.foldl FS.insertDir fs).dirs := by
  induction l with
  | nil => intro fs q h; cases h
  | cons d ds ih =>
      intro fs q h
      rcases List.mem_cons.mp h with h | h
      · subst h
        exact foldl_insertDir_mem_of_mem ds _ q (FS.mem_dirs_insertDir_self fs q)
      · exact ih _ q h

/-- A fold of directory creations keeps the file set untouched. -/
theorem foldl_insertDir_files (l : List Path) :
    ∀ fs : FS, (l.foldl FS.insertDir fs).files = fs.files := by
  induction l with
  | nil => intro fs; rfl
  | cons d ds ih =>
      intro fs
      rw [List.foldl_cons, ih, FS.files_insertDir]

/-- A fold of directory creations over already-existing directories is the
identity. -/
theorem foldl_insertDir_fixed (l : List Path) :
    ∀ fs : FS, (∀ q ∈ l, q ∈ fs.dirs) → l.foldl FS.insertDir fs = fs := by
  induction l with
  | nil => intro fs _; rfl
  | cons d ds ih =>
      intro fs h
      rw [List.foldl_cons, FS.insertDir_of_mem fs d (h d (List.mem_cons_self _ _))]
      exact ih fs (fun q hq => h q (List.mem_cons_of_mem _ hq))

/-- mkdir with parents keeps every existing directory. -/
theorem FS.mem_dirs_mkdirParents_of_mem (fs : FS) (p q : Path) (h : q ∈ fs.dirs) :
    q ∈ (fs.mkdirParents p).dirs :=
  foldl_insertDir_mem_of_mem p.inits fs q h

/-- mkdir with parents creates the directory and each of its ancestors. -/
theorem FS.mem_dirs_mkdirParents (fs : FS) (p q : Path) (h : ∃ t, q ++ t = p) :
    q ∈ (fs.mkdirParents p).dirs :=
  foldl_insertDir_mem_self p.inits fs q ((List.mem_inits _ _).mpr h)

/-- mkdir with parents keeps the file set untouched. -/
theorem FS.files_mkdirParents (fs : FS) (p : Path) : (fs.mkdirParents p).files = fs.files :=
  foldl_insertDir_files p.inits fs

/-- mkdir with parents changes nothing when the directory and its ancestors
already exist. -/
theorem FS.mkdirParents_fixed (fs : FS) (p : Path)
    (h : ∀ q ∈ p.inits, q ∈ fs.dirs) : fs.mkdirParents p = fs :=
  foldl_insertDir_fixed p.inits fs h

/-- A fold of recursive directory creations keeps every existing directory. -/
theorem foldl_mkdirParents_mem_of_mem (l : List Path) :
    ∀ fs : FS, ∀ q ∈ fs.dirs, q ∈ (l.foldl FS.mkdirParents fs).dirs := by
  induction l with
  | nil => intro fs q h; exact h
  | cons d ds ih =>
      intro fs q h
      exact ih _ _ (FS.mem_dirs_mkdirParents_of_mem fs d q h)

/-- A fold of recursive directory creations creates every listed directory
together with its ancestors. -/
theorem foldl_mkdirParents_creates (l : List Path) :
    ∀ fs : FS, ∀ d ∈ l, ∀ q, (∃ t, q ++ t = d) →
      q ∈ (l.foldl FS.mkdirParents fs).dirs := by
  induction l with
  | nil => intro fs d h; cases h
  | cons d' ds ih =>
      intro fs d hd q hq
      rcases List.mem_cons.mp hd with h | h
      · subst h
        exact foldl_mkdirParents_mem_of_mem ds _ q (FS.mem_dirs_mkdirParents fs d q hq)
      · exact ih _ d h q hq

/-- A fold of recursive directory creations keeps the file set untouched. -/
theorem foldl_mkdirParents_files (l : List Path) :
    ∀ fs : FS, (l.foldl FS.mkdirParents fs).files = fs.files := by
  induction l with
  | nil => intro fs; rfl
  | cons d ds ih =>
      intro fs
      rw [List.foldl_cons, ih, FS.files_mkdirParents]

/-- A fold of recursive directory creations over already-present directories
is the identity. -/
theorem foldl_mkdirParents_fixed (l : List Path) :
    ∀ fs : FS, (∀ d ∈ l, ∀ q ∈ d.inits, q ∈ fs.dirs) →
      l.foldl FS.mkdirParents fs = fs := by
  induction l with
  | nil => intro fs _; rfl
  | cons d ds ih =>
      intro fs h
      rw [List.foldl_cons, FS.mkdirParents_fixed fs d (h d (List.mem_cons_self _ _))]
      exact ih fs (fun d' hd' => h d' (List.mem_cons_of_mem _ hd'))

/-- C6: ensure_dirs creates every catalog directory including intermediate
parents; it is idempotent (a second call leaves the filesystem state exactly
unchanged); it never removes a directory and never touches the file set, so
pre-existing directories and unrelated files survive; and it is total, hence
raises no error in any starting state. -/
theorem ensure_dirs_idempotent (root : Path) (fs : FS) :
    (∀ d ∈ catalogDirs root, ∀ q, (∃ t, q ++ t = d) → q ∈ (ensure_dirs root fs).dirs) ∧
    ensure_dirs root (ensure_dirs root fs) = ensure_dirs root fs ∧
    (∀ q ∈ fs.dirs, q ∈ (ensure_dirs root fs).dirs) ∧
    (ensure_dirs root fs).files = fs.files := by
  refine ⟨?_, ?_, ?_, ?_⟩
  · intro d hd q hq
    exact foldl_mkdirParents_creates (catalogDirs root) fs d hd q hq
  · apply foldl_mkdirParents_fixed
    intro d hd q hq
    exact foldl_mkdirParents_creates (catalogDirs root) fs d hd q ((List.mem_inits _ _).mp hq)
  · intro q hq
    exact foldl_mkdirParents_mem_of_mem (catalogDirs root) fs q hq
  · exact foldl_mkdirParents_files (catalogDirs root) fs

/-- Witness for ensure_dirs_idempotent at an empty root and filesystem. -/
theorem ensure_dirs_idempotent_witness :
    ["data", "raw"] ∈ (ensure_dirs [] ⟨[], []⟩).dirs ∧
    ensure_dirs [] (ensure_dirs [] ⟨[], []⟩) = ensure_dirs [] ⟨[], []⟩ :=
  ⟨(ensure_dirs_idempotent [] ⟨[], []⟩).1 (RAW_GENOTYPES_DIR [])
      (by simp [catalogDirs]) ["data", "raw"] ⟨["hapmap", "genotypes"], rfl⟩,
   (ensure_dirs_idempotent [] ⟨[], []⟩).2.1⟩

/-- C2: for a valid method name in method1, method2, method3 and any rendered
epsilon, method_dir returns the path derived-dir, method, eps_ followed by
the epsilon rendering with dots replaced by underscores; in particular the
rendering 0.1 yields a path ending in method1, eps_0_1, and the rendering 10
yields one ending in eps_10. -/
theorem method_dir_naming (root : Path) (method epsStr : String) (fs : FS)
    (hm : method = "method1" ∨ method = "method2" ∨ method = "method3") :
    (method_dir root method epsStr fs).1 =
      Except.ok (DERIVED_DIR root ++ [method, "eps_" ++ dotToUnderscore epsStr]) ∧
    (method_dir root "method1" "0.1" fs).1 =
      Except.ok (DERIVED_DIR root ++ ["method1", "eps_0_1"]) ∧
    (method_dir root "method1" "10" fs).1 =
      Except.ok (DERIVED_DIR root ++ ["method1", "eps_10"]) := by
  refine ⟨?_, ?_, ?_⟩
  · simp [method_dir, hm]
  · have h1 : dotToUnderscore "0.1" = "0_1" := rfl
    simp [method_dir, h1]
  · have h2 : dotToUnderscore "10" = "10" := rfl
    simp [method_dir, h2]

/-- Witness for method_dir_naming at a concrete root, method and filesystem. -/
theorem method_dir_naming_witness :
    (method_dir [] "method1" "0.1" ⟨[], []⟩).1 =
      Except.ok ["data", "derived", "method1", "eps_0_1"] := by
  have h := method_dir_naming [] "method1" "0.1" ⟨[], []⟩ (Or.inl rfl)
  simpa [DERIVED_DIR, DATA_DIR] using h.1

/-- C7: an unrecognized method name makes method_dir fail with InvalidMethod
and leave the filesystem state exactly as it was, so no directory is created
before the validation; a valid method name makes it create the returned
directory, with all its parents, before returning. -/
theorem method_dir_validation_order (root : Path) (method epsStr : String) (fs : FS) :
    (¬(method = "method1" ∨ method = "method2" ∨ method = "method3") →
      method_dir root method epsStr fs = (Except.error PipeError.invalidMethod, fs)) ∧
    ((method = "method1" ∨ method = "method2" ∨ method = "method3") →
      ∀ out, (method_dir root method epsStr fs).1 = Except.ok out →
        out ∈ (method_dir root method epsStr fs).2.dirs ∧
        ∀ q, (∃ t, q ++ t = out) → q ∈ (method_dir root method epsStr fs).2.dirs) := by
  constructor
  · intro h
    simp [method_dir, h]
  · intro hm out hout
    have hval : (method_dir root method epsStr fs).1 =
        Except.ok (DERIVED_DIR root ++ [method, "eps_" ++ dotToUnderscore epsStr]) := by
      simp [method_dir, hm]
    have hsnd : (method_dir root method epsStr fs).2 =
        fs.mkdirParents (DERIVED_DIR root ++ [method, "eps_" ++ dotToUnderscore epsStr]) := by
      simp [method_dir, hm]
    have hout2 : out = DERIVED_DIR root ++ [method, "eps_" ++ dotToUnderscore epsStr] := by
      rw [hval] at hout
      exact (Except.ok.injEq _ _).mp hout.symm
    subst hout2
    rw [hsnd]
    exact ⟨FS.mem_dirs_mkdirParents fs _ _ ⟨[], by simp⟩,
      fun q hq => FS.mem_dirs_mkdirParents fs _ q hq⟩

/-- Witness for method_dir_validation_order: an unknown method fails and
changes nothing, and a valid method creates the returned directory. -/
theorem method_dir_validation_order_witness :
    method_dir [] "bad" "1" ⟨[], []⟩ = (Except.error PipeError.invalidMethod, ⟨[], []⟩) ∧
    ["data", "derived", "method2", "eps_2"] ∈ (method_dir [] "method2" "2" ⟨[], []⟩).2.dirs :=
  ⟨(method_dir_validation_order [] "bad" "1" ⟨[], []⟩).1 (by decide),
   ((method_dir_validation_order [] "method2" "2" ⟨[], []⟩).2 (Or.inr (Or.inl rfl))
      ["data", "derived", "method2", "eps_2"] rfl).1⟩

/-- C10: method_dir never validates the epsilon argument: for every rendering
of epsilon, including renderings of zero and of negative values, the call with
a valid method name succeeds, encodes the rendering into the directory name,
creates the directory, and returns the path. -/
theorem method_dir_eps_unvalidated (root : Path) (method epsStr : String) (fs : FS)
    (hm : method = "method1" ∨ method = "method2" ∨ method = "method3") :
    (method_dir root method epsStr fs).1 =
      Except.ok (DERIVED_DIR root ++ [method, "eps_" ++ dotToUnderscore epsStr]) ∧
    DERIVED_DIR root ++ [method, "eps_" ++ dotToUnderscore epsStr] ∈
      (method_dir root method epsStr fs).2.dirs := by
  have hsnd : (method_dir root method epsStr fs).2 =
      fs.mkdirParents (DERIVED_DIR root ++ [method, "eps_" ++ dotToUnderscore epsStr]) := by
    simp [method_dir, hm]
  refine ⟨by simp [method_dir, hm], ?_⟩
  rw [hsnd]
  exact FS.mem_dirs_mkdirParents fs _ _ ⟨[], by simp⟩

/-- Witness for method_dir_eps_unvalidated at renderings of a negative and of
a zero epsilon. -/
theorem method_dir_eps_unvalidated_witness :
    (method_dir [] "method1" "-0.5" ⟨[], []⟩).1 =
      Except.ok ["data", "derived", "method1", "eps_-0_5"] ∧
    (method_dir [] "method3" "0" ⟨[], []⟩).1 =
      Except.ok ["data", "derived", "method3", "eps_0"] :=
  ⟨(method_dir_eps_unvalidated [] "method1" "-0.5" ⟨[], []⟩ (Or.inl rfl)).1,
   (method_dir_eps_unvalidated [] "method3" "0" ⟨[], []⟩ (Or.inr (Or.inr rfl))).1⟩

/-- Appending one component pushes the old path onto the front of the
ancestor chain. -/
theorem parentsOf_concat (l : Path) (x : String) :
    parentsOf (l ++ [x]) = l :: parentsOf l := by
  rw [parentsOf]
  simp

/-- A successful find? splits its list into a failing part, the hit, and a
rest. -/
theorem find?_decomp {α : Type} (p : α → Bool) :
    ∀ (l : List α) (r : α), l.find? p = some r →
      ∃ l₁ l₂, l = l₁ ++ r :: l₂ ∧ (∀ a ∈ l₁, p a = false) ∧ p r = true := by
  intro l
  induction l with
  | nil => intro r h; simp [List.find?] at h
  | cons x xs ih =>
      intro r h
      by_cases hx : p x
      · refine ⟨[], xs, ?_, ?_, ?_⟩
        · simp only [List.find?, hx] at h
          simp [Option.some.inj h]
        · intro a ha; cases ha
        · simp only [List.find?, hx] at h
          rw [← Option.some.inj h]; exact hx
      · have hx' : p x = false := Bool.eq_false_iff.mpr hx
        simp only [List.find?, hx'] at h
        obtain ⟨l₁, l₂, heq, hfail, hr⟩ := ih r h
        refine ⟨x :: l₁, l₂, by rw [heq]; rfl, ?_, hr⟩
        intro a ha
        rcases List.mem_cons.mp ha with ha | ha
        · subst ha; exact hx'
        · exact hfail a ha

/-- C4: find_project_root returns the first directory, among the working
directory and then its ancestors nearest first, that carries the marker (a
requirements.txt file or a .git entry): every candidate checked before the
returned one lacks the marker; when no candidate carries it, it fails with
RootNotFound naming the starting directory; and from a directory three levels
below a marked directory, with no nearer marker, it returns the marked
directory, not the working directory. -/
theorem find_project_root_contract (fs : FS) (cwd : Path) :
    (∀ r, find_project_root fs cwd = Except.ok r →
      ∃ pre post, cwd :: parentsOf cwd = pre ++ r :: post ∧
        hasRootMarker fs r = true ∧ ∀ d ∈ pre, hasRootMarker fs d = false) ∧
    ((∀ d ∈ cwd :: parentsOf cwd, hasRootMarker fs d = false) →
      find_project_root fs cwd = Except.error (PipeError.rootNotFound cwd)) ∧
    (∀ base a b c, cwd = base ++ [a, b, c] →
      hasRootMarker fs base = true →
      hasRootMarker fs (base ++ [a]) = false →
      hasRootMarker fs (base ++ [a, b]) = false →
      hasRootMarker fs cwd = false →
      find_project_root fs cwd = Except.ok base) := by
  refine ⟨?_, ?_, ?_⟩
  · intro r hr
    by_cases hc : hasRootMarker fs cwd
    · refine ⟨[], parentsOf cwd, ?_, ?_, ?_⟩
      · simp only [find_project_root, hc, if_true] at hr
        simp [Except.ok.inj hr]
      · simp only [find_project_root, hc, if_true] at hr
        rw [← Except.ok.inj hr]; exact hc
      · intro d hd; cases hd
    · have hc' : hasRootMarker fs cwd = false := Bool.eq_false_iff.mpr hc
      simp only [find_project_root, hc', if_neg Bool.false_ne_true] at hr
      cases hfind : (parentsOf cwd).find? (hasRootMarker fs) with
      | none => rw [hfind] at hr; cases hr
      | some q =>
          rw [hfind] at hr
          have hq : q = r := Except.ok.inj hr
          subst hq
          obtain ⟨l₁, l₂, heq, hfail, hmark⟩ := find?_decomp (hasRootMarker fs) _ q hfind
          refine ⟨cwd :: l₁, l₂, by rw [heq]; rfl, hmark, ?_⟩
          intro d hd
          rcases List.mem_cons.mp hd with hd | hd
          · subst hd; exact hc'
          · exact hfail d hd
  · intro hall
    have hc : hasRootMarker fs cwd = false := hall cwd (List.mem_cons_self _ _)
    have hnone : (parentsOf cwd).find? (hasRootMarker fs) = none :=
      List.find?_eq_none.mpr (fun d hd => by
        have := hall d (List.mem_cons_of_mem _ hd)
        simp [this])
    simp [find_project_root, hc, hnone]
  · intro base a b c hcwd h0 h1 h2 h3
    subst hcwd
    have hp : parentsOf (base ++ [a, b, c]) =
        (base ++ [a, b]) :: (base ++ [a]) :: base :: parentsOf base := by
      have e3 : base ++ [a, b, c] = (base ++ [a, b]) ++ [c] := by simp
      have e2 : base ++ [a, b] = (base ++ [a]) ++ [b] := by simp
      have e1 : base ++ [a] = base ++ [a] := rfl
      rw [e3, parentsOf_concat, e2, parentsOf_concat, parentsOf_concat]
    simp only [find_project_root, h3, if_neg Bool.false_ne_true, hp]
    simp [List.find?, h2, h1, h0]

/-- Witness for find_project_root_contract: from repo/a/b/c with the
version-control marker at repo, resolution returns repo. -/
theorem find_project_root_contract_witness :
    find_project_root ⟨[["repo", ".git"]], []⟩ ["repo", "a", "b", "c"] =
      Except.ok ["repo"] :=
  (find_project_root_contract ⟨[["repo", ".git"]], []⟩ ["repo", "a", "b", "c"]).2.2
    ["repo"] "a" "b" "c" rfl (by decide) (by decide) (by decide) (by decide)

/-- C3: for every population whose uppercased form is CEU or YRI,
genotype_path returns the raw-genotypes path built from the chromosome and
the uppercased population; two populations with the same uppercased form
yield the same result, so inputs differing only in letter case agree; a
population whose uppercased form is neither CEU nor YRI fails with
InvalidPopulation. The function takes no filesystem state, so it is
deterministic and performs no filesystem access by construction. -/
theorem genotype_path_contract (root : Path) (pop pop₂ : String) (chrom : Int) :
    (pyUpper pop = "CEU" ∨ pyUpper pop = "YRI" →
      genotype_path root pop chrom = Except.ok (RAW_GENOTYPES_DIR root ++
        ["genotypes_chr" ++ toString chrom ++ "_" ++ pyUpper pop ++
          "_r27_nr.b36_fwd.txt.gz"])) ∧
    (pyUpper pop = pyUpper pop₂ →
      genotype_path root pop chrom = genotype_path root pop₂ chrom) ∧
    (¬(pyUpper pop = "CEU" ∨ pyUpper pop = "YRI") →
      genotype_path root pop chrom = Except.error PipeError.invalidPopulation) := by
  refine ⟨?_, ?_, ?_⟩
  · intro h
    simp [genotype_path, h]
  · intro h
    simp [genotype_path, h]
  · intro h
    simp [genotype_path, h]

/-- Witness for genotype_path_contract: a lowercase population resolves like
its uppercase form, and an unknown population is rejected. -/
theorem genotype_path_contract_witness :
    genotype_path [] "ceu" 2 =
      Except.ok ["data", "raw", "hapmap", "genotypes",
        "genotypes_chr2_CEU_r27_nr.b36_fwd.txt.gz"] ∧
    genotype_path [] "ceu" 2 = genotype_path [] "CeU" 2 ∧
    genotype_path [] "ASW" 10 = Except.error PipeError.invalidPopulation :=
  ⟨by
    have h := (genotype_path_contract [] "ceu" "ceu" 2).1 (Or.inl rfl)
    simpa [RAW_GENOTYPES_DIR, RAW_DIR, DATA_DIR] using h,
   (genotype_path_contract [] "ceu" "CeU" 2).2.1 rfl,
   (genotype_path_contract [] "ASW" "ASW" 10).2.2 (by decide)⟩

/-- C1: get_group_indices fails with InvalidGroup on a group name outside
case, control and test; on a valid group whose record lacks the
indices_in_ceu_matrix field it fails with the explanatory error naming the
group and that field; and when the field holds an integer list it returns
exactly that list, with no fallback substitution. -/
theorem get_group_indices_contract (cohorts : CohortDoc) (group : String) :
    (¬(group = "case" ∨ group = "control" ∨ group = "test") →
      get_group_indices cohorts group = Except.error PipeError.invalidGroup) ∧
    (∀ g, (group = "case" ∨ group = "control" ∨ group = "test") →
      assocFind cohorts group = some g →
      assocFind g indicesField = none →
      get_group_indices cohorts group =
        Except.error (PipeError.missingIndices group indicesField)) ∧
    (∀ g l, (group = "case" ∨ group = "control" ∨ group = "test") →
      assocFind cohorts group = some g →
      assocFind g indicesField = some (Jval.ints l) →
      get_group_indices cohorts group = Except.ok l) := by
  refine ⟨?_, ?_, ?_⟩
  · intro h
    simp [get_group_indices, h]
  · intro g hv hg hf
    simp [get_group_indices, hv, hg, hf]
  · intro g l hv hg hf
    simp [get_group_indices, hv, hg, hf, npArrayInt]

/-- Witness for get_group_indices_contract on the two documents of the spec
example: a case record without indices fails naming the group and field, and
a case record with indices zero, three, seven returns that list. -/
theorem get_group_indices_contract_witness :
    get_group_indices [("case", [("sample_ids", Jval.strs ["s1", "s2"])])] "case" =
      Except.error (PipeError.missingIndices "case" "indices_in_ceu_matrix") ∧
    get_group_indices [("case", [("indices_in_ceu_matrix", Jval.ints [0, 3, 7])])] "case" =
      Except.ok [0, 3, 7] :=
  ⟨(get_group_indices_contract
      [("case", [("sample_ids", Jval.strs ["s1", "s2"])])] "case").2.1
      [("sample_ids", Jval.strs ["s1", "s2"])] (Or.inl rfl) rfl rfl,
   (get_group_indices_contract
      [("case", [("indices_in_ceu_matrix", Jval.ints [0, 3, 7])])] "case").2.2
      [("indices_in_ceu_matrix", Jval.ints [0, 3, 7])] [0, 3, 7] (Or.inl rfl) rfl rfl⟩

/-- C9: on a document that lacks the requested group key entirely, a valid
group name makes get_group_indices fail with the plain key-lookup error from
subscripting the document, not with the explanatory missing-indices error. -/
theorem get_group_indices_missing_group (cohorts : CohortDoc) (group : String)
    (hv : group = "case" ∨ group = "control" ∨ group = "test")
    (hg : assocFind cohorts group = none) :
    get_group_indices cohorts group = Except.error (PipeError.keyLookup group) ∧
    ∀ f, get_group_indices cohorts group ≠
      Except.error (PipeError.missingIndices group f) := by
  have h : get_group_indices cohorts group = Except.error (PipeError.keyLookup group) := by
    simp [get_group_indices, hv, hg]
  exact ⟨h, fun f hc => by rw [h] at hc; cases hc⟩

/-- Witness for get_group_indices_missing_group on a document holding only a
control group while the case group is requested. -/
theorem get_group_indices_missing_group_witness :
    get_group_indices [("control", [("indices_in_ceu_matrix", Jval.ints [1])])] "case" =
      Except.error (PipeError.keyLookup "case") :=
  (get_group_indices_missing_group
      [("control", [("indices_in_ceu_matrix", Jval.ints [1])])] "case"
      (Or.inl rfl) (by decide)).1

/-- The assertExists loop appends one report line per path and conjoins the
presence of every path onto the incoming flag. -/
theorem foldl_assertStep (fs : FS) :
    ∀ (paths : List Path) (acc : List (Path × Bool) × Bool),
      paths.foldl (assertStep fs) acc =
        (acc.1 ++ paths.map (fun p => (p, fs.pathExists p)),
         acc.2 && paths.all (fs.pathExists)) := by
  intro paths
  induction paths with
  | nil => intro acc; simp
  | cons p ps ih =>
      intro acc
      rw [List.foldl_cons, ih]
      simp [assertStep, Bool.and_assoc]

/-- C8: assertExists reports every checked path, in order, with its
presence; it fails with MissingRequiredFiles exactly when at least one
checked path is absent, and the failure is decided only by the flag
accumulated over the whole list, after all paths have been inspected; when
every path exists it returns without error. -/
theorem assert_exists_contract (fs : FS) (paths : List Path) :
    (assertExists fs paths).1 = paths.map (fun p => (p, fs.pathExists p)) ∧
    ((assertExists fs paths).2 = Except.error PipeError.missingRequiredFiles ↔
      ∃ p ∈ paths, fs.pathExists p = false) ∧
    ((∀ p ∈ paths, fs.pathExists p = true) →
      (assertExists fs paths).2 = Except.ok ()) := by
  have hfold := foldl_assertStep fs paths ([], true)
  refine ⟨?_, ?_, ?_⟩
  · simp [assertExists, hfold]
  · by_cases hall : paths.all (fs.pathExists) = true
    · have : ∀ p ∈ paths, fs.pathExists p = true := List.all_eq_true.mp hall
      simp only [assertExists, hfold]
      simp only [List.nil_append, Bool.true_and, hall, if_true]
      constructor
      · intro hc; cases hc
      · rintro ⟨p, hp, hfalse⟩
        rw [this p hp] at hfalse
        cases hfalse
    · have hfalse : paths.all (fs.pathExists) = false := Bool.eq_false_iff.mpr hall
      have hres : (assertExists fs paths).2 =
          Except.error PipeError.missingRequiredFiles := by
        simp [assertExists, hfold, hfalse]
      rw [hres]
      have hw : ∃ p ∈ paths, fs.pathExists p = false := by
        have hx := List.all_eq_true.not.mp hall
        push_neg at hx
        obtain ⟨p, hp, hnp⟩ := hx
        exact ⟨p, hp, Bool.eq_false_iff.mpr hnp⟩
      exact ⟨fun _ => hw, fun _ => rfl⟩
  · intro hall
    have h : paths.all (fs.pathExists) = true := List.all_eq_true.mpr hall
    simp [assertExists, hfold, h]

/-- Witness for assert_exists_contract: with one existing file, checking it
alone passes, and checking it with an absent path reports both and fails. -/
theorem assert_exists_contract_witness :
    (assertExists ⟨[], [["a"]]⟩ [["a"]]).2 = Except.ok () ∧
    (assertExists ⟨[], [["a"]]⟩ [["a"], ["b"]]).2 =
      Except.error PipeError.missingRequiredFiles ∧
    (assertExists ⟨[], [["a"]]⟩ [["a"], ["b"]]).1 = [(["a"], true), (["b"], false)] :=
  ⟨(assert_exists_contract ⟨[], [["a"]]⟩ [["a"]]).2.2 (by decide),
   (assert_exists_contract ⟨[], [["a"]]⟩ [["a"], ["b"]]).2.1.mpr
     ⟨["b"], by simp, by decide⟩,
   by
     have h := (assert_exists_contract ⟨[], [["a"]]⟩ [["a"], ["b"]]).1
     rw [h]; decide⟩

/-- Dict lookup on a cons cell. -/
theorem assocFind_cons {α : Type} (kv : String × α) (m : List (String × α))
    (k : String) :
    assocFind (kv :: m) k = if kv.1 = k then some kv.2 else assocFind m k := by
  by_cases h : kv.1 = k <;> simp [assocFind, List.find?, h]

/-- Assigning to a key keeps the key sequence of the dict. -/
theorem assocUpdate_keys {α : Type} (m : List (String × α)) (k : String) (v : α) :
    (assocUpdate m k v).map Prod.fst = m.map Prod.fst := by
  induction m with
  | nil => rfl
  | cons kv rest ih =>
      by_cases h : kv.1 = k <;> simp [assocUpdate, h] at ih ⊢ <;> exact ih

/-- Looking up an assigned key that was present yields the new value. -/
theorem assocFind_update_self {α : Type} (m : List (String × α)) (k : String)
    (a v : α) (h : assocFind m k = some a) :
    assocFind (assocUpdate m k v) k = some v := by
  induction m with
  | nil => simp [assocFind, List.find?] at h
  | cons kv rest ih =>
      rw [assocFind_cons] at h
      by_cases hk : kv.1 = k
      · simp [assocUpdate, hk, assocFind_cons]
      · rw [if_neg hk] at h
        have := ih h
        simpa [assocUpdate, hk, assocFind_cons] using this

/-- Looking up a different key after an assignment is unchanged. -/
theorem assocFind_update_other {α : Type} (m : List (String × α)) (k k' : String)
    (v : α) (h : k' ≠ k) :
    assocFind (assocUpdate m k v) k' = assocFind m k' := by
  induction m with
  | nil => rfl
  | cons kv rest ih =>
      by_cases hk : kv.1 = k
      · have : k ≠ k' := fun e => h e.symm
        simp [assocUpdate, hk, assocFind_cons, this]
        simpa [assocUpdate] using ih
      · simp only [assocUpdate, List.map_cons, if_neg hk, assocFind_cons]
        by_cases hk' : kv.1 = k'
        · simp [hk']
        · simp only [if_neg hk']
          simpa [assocUpdate] using ih

/-- The conditional normalization keeps the key sequence. -/
theorem applyTotal_keys (m : Archive) (k : String) (f : NpArr → NpArr) :
    (applyTotal m k f).map Prod.fst = m.map Prod.fst := by
  unfold applyTotal
  cases assocFind m k with
  | none => rfl
  | some a => exact assocUpdate_keys m k (f a)

/-- Looking up the normalized key yields the transformed value when present,
nothing when absent. -/
theorem assocFind_applyTotal_self (m : Archive) (k : String) (f : NpArr → NpArr) :
    assocFind (applyTotal m k f) k = (assocFind m k).map f := by
  unfold applyTotal
  cases h : assocFind m k with
  | none => simp [h]
  | some a => simpa using assocFind_update_self m k a (f a) h

/-- Looking up a different key after the conditional normalization is
unchanged. -/
theorem assocFind_applyTotal_other (m : Archive) (k k' : String)
    (f : NpArr → NpArr) (h : k' ≠ k) :
    assocFind (applyTotal m k f) k' = assocFind m k' := by
  unfold applyTotal
  cases assocFind m k with
  | none => rfl
  | some a => exact assocFind_update_other m k k' (f a) h

/-- An integer cast of all-integer data succeeds and wraps elementwise,
whatever the magnitudes of the values. -/
theorem castData_ok (f : Int → Int) :
    ∀ l : List NpElem, (∀ e ∈ l, isIntElem e = true) →
      castData f l = Except.ok (l.map (mapIntsElem f)) := by
  intro l
  induction l with
  | nil => intro _; rfl
  | cons e rest ih =>
      intro h
      have he := h e (List.mem_cons_self _ _)
      cases e with
      | i z =>
          rw [List.map_cons]
          simp [castData, ih (fun e' he' => h e' (List.mem_cons_of_mem _ he')),
            mapIntsElem, Except.map]
      | s t => simp [isIntElem] at he

/-- An absent key makes the conditional cast a no-op without error. -/
theorem applyCast_none (m : Archive) (k : String)
    (f : NpArr → Except PipeError NpArr) (h : assocFind m k = none) :
    applyCast m k f = Except.ok m := by
  unfold applyCast
  rw [h]

/-- A present key with a successful cast updates the binding in place. -/
theorem applyCast_some (m : Archive) (k : String)
    (f : NpArr → Except PipeError NpArr) (a b : NpArr)
    (h : assocFind m k = some a) (hf : f a = Except.ok b) :
    applyCast m k f = Except.ok (assocUpdate m k b) := by
  unfold applyCast
  rw [h]
  show Except.map (assocUpdate m k) (f a) = Except.ok (assocUpdate m k b)
  rw [hf]
  rfl

/-- A successful conditional integer cast of a field: the call succeeds, the
key sequence is kept, other keys are untouched, a present field becomes the
wrapped data under the target dtype, and an absent field stays absent. -/
theorem applyCast_intField (m : Archive) (k : String) (f : Int → Int) (dt : Dtype)
    (g : NpArr → Except PipeError NpArr)
    (hg : ∀ a, g a = (castData f a.data).map (fun d => (⟨dt, d⟩ : NpArr)))
    (hint : ∀ a, assocFind m k = some a → ∀ e ∈ a.data, isIntElem e = true) :
    ∃ m', applyCast m k g = Except.ok m' ∧
      m'.map Prod.fst = m.map Prod.fst ∧
      (∀ k', k' ≠ k → assocFind m' k' = assocFind m k') ∧
      (∀ a, assocFind m k = some a →
        assocFind m' k = some ⟨dt, a.data.map (mapIntsElem f)⟩) ∧
      (assocFind m k = none → assocFind m' k = none) := by
  cases h : assocFind m k with
  | none =>
      refine ⟨m, applyCast_none m k g h, rfl, fun _ _ => rfl, ?_, fun _ => h⟩
      intro a ha
      exact Option.noConfusion ha
  | some a =>
      have hcast : g a = Except.ok ⟨dt, a.data.map (mapIntsElem f)⟩ := by
        rw [hg a, castData_ok f a.data (hint a h)]
        rfl
      refine ⟨assocUpdate m k ⟨dt, a.data.map (mapIntsElem f)⟩,
        applyCast_some m k g a _ h hcast, assocUpdate_keys m k _, ?_, ?_, ?_⟩
      · intro k' hk'
        exact assocFind_update_other m k k' _ hk'
      · intro a' ha'
        cases Option.some.inj ha'
        exact assocFind_update_self m k a _ h
      · intro hnone
        exact Option.noConfusion hnone

/-- The identifier-normalization loop keeps the key sequence. -/
theorem objFold_keys :
    ∀ (ks : List String) (m : Archive),
      (ks.foldl objNormStep m).map Prod.fst = m.map Prod.fst := by
  intro ks
  induction ks with
  | nil => intro m; rfl
  | cons k ks ih =>
      intro m
      rw [List.foldl_cons, ih, objNormStep, applyTotal_keys]

/-- Lookup after the identifier-normalization loop: a key in the list maps
its present value to the object dtype, a key outside the list is untouched. -/
theorem objFold_find :
    ∀ (ks : List String) (m : Archive) (k : String),
      assocFind (ks.foldl objNormStep m) k =
        if k ∈ ks then (assocFind m k).map astypeObj else assocFind m k := by
  intro ks
  induction ks with
  | nil => intro m k; simp
  | cons k' ks ih =>
      intro m k
      rw [List.foldl_cons, ih]
      unfold objNormStep
      by_cases hk : k = k'
      · subst hk
        rw [assocFind_applyTotal_self]
        rw [if_pos (List.mem_cons_self k ks)]
        by_cases hin : k ∈ ks
        · rw [if_pos hin]
          cases assocFind m k <;> rfl
        · rw [if_neg hin]
      · rw [assocFind_applyTotal_other m k' k astypeObj hk]
        have hmem : (k ∈ k' :: ks) ↔ (k ∈ ks) := by
          simp [List.mem_cons, hk]
        by_cases hin : k ∈ ks
        · rw [if_pos hin, if_pos (hmem.mpr hin)]
        · rw [if_neg hin, if_neg (fun hc => hin (hmem.mp hc))]

/-- C5: on an archive whose positions field (when present) and genotype
field G (when present) hold integer data of any magnitude, load_region_npz
succeeds; it keeps exactly the keys of the archive (absent fields stay
absent and raise nothing); every present identifier-like field is returned
under the generic object dtype with its data untouched; a present positions
field is returned as 64-bit integers; and a present G field is returned as
8-bit signed integers by wrap-around, so out-of-range values are never
rejected. -/
theorem load_region_npz_contract (z : Archive)
    (hpos : ∀ a, assocFind z "positions" = some a → ∀ e ∈ a.data, isIntElem e = true)
    (hG : ∀ a, assocFind z "G" = some a → ∀ e ∈ a.data, isIntElem e = true) :
    ∃ r, load_region_npz z = Except.ok r ∧
      r.map Prod.fst = z.map Prod.fst ∧
      (∀ k, assocFind z k = none → assocFind r k = none) ∧
      (∀ k a, k ∈ objKeys → assocFind z k = some a →
        assocFind r k = some ⟨Dtype.obj, a.data⟩) ∧
      (∀ a, assocFind z "positions" = some a →
        assocFind r "positions" = some ⟨Dtype.int64, a.data.map (mapIntsElem wrap64)⟩) ∧
      (∀ a, assocFind z "G" = some a →
        assocFind r "G" = some ⟨Dtype.int8, a.data.map (mapIntsElem wrap8)⟩) := by
  set m1 := objKeys.foldl objNormStep z with hm1
  have fpos1 : assocFind m1 "positions" = assocFind z "positions" := by
    rw [hm1, objFold_find]
    exact if_neg (by decide)
  have fG1 : assocFind m1 "G" = assocFind z "G" := by
    rw [hm1, objFold_find]
    exact if_neg (by decide)
  have keys1 : m1.map Prod.fst = z.map Prod.fst := by
    rw [hm1]; exact objFold_keys objKeys z
  have fobj1 : ∀ k, k ∈ objKeys → assocFind m1 k = (assocFind z k).map astypeObj := by
    intro k hk
    rw [hm1, objFold_find]
    exact if_pos hk
  have fnone1 : ∀ k, assocFind z k = none → assocFind m1 k = none := by
    intro k hk
    rw [hm1, objFold_find]
    by_cases h : k ∈ objKeys
    · simp [h, hk]
    · simp [h, hk]
  obtain ⟨m2, h2, keys2, fother2, fself2, fnone2⟩ :=
    applyCast_intField m1 "positions" wrap64 Dtype.int64 astypeInt64
      (fun a => rfl) (fun a ha => hpos a (fpos1 ▸ ha))
  obtain ⟨m3, h3, keys3, fother3, fself3, fnone3⟩ :=
    applyCast_intField m2 "G" wrap8 Dtype.int8 astypeInt8
      (fun a => rfl)
      (fun a ha => hG a (by
        rw [← fG1, ← fother2 "G" (by decide)]
        exact ha))
  have hload : load_region_npz z = Except.ok m3 := by
    have hdef : load_region_npz z =
        Except.bind (applyCast m1 "positions" astypeInt64)
          (fun out => applyCast out "G" astypeInt8) := by
      rw [hm1]
      rfl
    rw [hdef, h2]
    exact h3
  refine ⟨m3, hload, ?_, ?_, ?_, ?_, ?_⟩
  · rw [keys3, keys2, keys1]
  · intro k hk
    by_cases hG' : k = "G"
    · subst hG'
      exact fnone3 (by rw [fother2 "G" (by decide), fG1]; exact hk)
    · rw [fother3 k hG']
      by_cases hp' : k = "positions"
      · subst hp'
        exact fnone2 (by rw [fpos1]; exact hk)
      · rw [fother2 k hp']
        exact fnone1 k hk
  · intro k a hk ha
    have hkp : k ≠ "positions" := by
      intro he
      subst he
      exact absurd hk (by decide)
    have hkG : k ≠ "G" := by
      intro he
      subst he
      exact absurd hk (by decide)
    rw [fother3 k hkG, fother2 k hkp, fobj1 k hk, ha]
    rfl
  · intro a ha
    rw [fother3 "positions" (by decide)]
    exact fself2 a (fpos1 ▸ ha)
  · intro a ha
    exact fself3 a (by rw [fother2 "G" (by decide), fG1]; exact ha)

/-- Witness for load_region_npz_contract on the concrete archive: the
genotype value two hundred wraps to minus fifty-six under the 8-bit dtype
instead of being rejected, and the absent snp_ids field stays absent with
no error. -/
theorem load_region_npz_contract_witness :
    ∃ r, load_region_npz sampleArchive = Except.ok r ∧
      assocFind r "G" =
        some ⟨Dtype.int8, [NpElem.i 0, NpElem.i 1, NpElem.i (-56)]⟩ ∧
      assocFind r "snp_ids" = none := by
  obtain ⟨r, hok, hkeys, hnone, hobj, hpos, hGv⟩ :=
    load_region_npz_contract sampleArchive
      (fun a ha => by
        cases Option.some.inj ha
        decide)
      (fun a ha => by
        cases Option.some.inj ha
        decide)
  refine ⟨r, hok, ?_, hnone "snp_ids" (by decide)⟩
  have h := hGv ⟨Dtype.stored, [NpElem.i 0, NpElem.i 1, NpElem.i 200]⟩ (by decide)
  rw [h]
  decide

end Gwas

